import Mathlib

/-!
# Verification of the TTVideoMaker orchestration core

Shallow embedding of the repository's pipeline code:

* `utils.py` — the processed-video ledger (`get_processed_videos`,
  `add_processed_video`, `is_video_processed`), modelled at the level of the
  backing file's character content so that Python's line splitting and
  `str.strip()` semantics are captured exactly;
* `editor.py` — `edit_video`'s filter-chain construction (mirror / border
  crop) and its external-process failure handling;
* `scraper.py` — `get_video_id_from_url`, `get_video_links_from_tiktok`,
  `download_video`, `verify_downloaded_video` and the
  `scrape_and_download_videos_by_hashtag` download loop;
* `main.py` — `App.scraping_worker`'s edit-then-commit loop.

External tools (yt-dlp, ffmpeg, ffprobe, Selenium) are opaque collaborators;
each invocation is modelled by an environment value recording the outcome the
external world produced (exit status, produced-file existence and size,
timeout, tool-not-found).  File-system effects on the artifact paths are
tracked as explicit booleans in the result structures.  The ledger file is
modelled at character level with Python's text-mode semantics: universal
newlines (`\n`, `\r\n`, bare `\r` all break lines) and the full
`str.strip()` whitespace set.  The crop-percentage cut
`int(w * (crop_percent / 100.0))` is evaluated in an exact model of
IEEE-754 binary64 arithmetic (`pyCut`), not idealised to integer division.
-/

namespace TTV

/-! ## Ledger store (`utils.py`)

The backing file `data/processed_videos.txt` is modelled by its character
content (`List Char`).  `FileState.absent` is a missing file,
`FileState.unreadable` a file whose open/read (and append) raises an I/O
error — the code catches the exception, logs, and falls back to the empty
set / a `False` return. -/

/-- The characters Python's `str.strip()` removes (`str.isspace()`):
U+0009–U+000D, U+001C–U+001F, the space, U+0085, U+00A0, U+1680,
U+2000–U+200A, U+2028, U+2029, U+202F, U+205F and U+3000. -/
def isPySpace (c : Char) : Bool :=
  (0x09 ≤ c.toNat && c.toNat ≤ 0x0d) || c = ' ' ||
  (0x1c ≤ c.toNat && c.toNat ≤ 0x1f) ||
  c.toNat = 0x85 || c.toNat = 0xa0 || c.toNat = 0x1680 ||
  (0x2000 ≤ c.toNat && c.toNat ≤ 0x200a) ||
  c.toNat = 0x2028 || c.toNat = 0x2029 || c.toNat = 0x202f ||
  c.toNat = 0x205f || c.toNat = 0x3000

/-- Python `str.strip()`: drop leading and trailing whitespace. -/
def stripChars (l : List Char) : List Char :=
  ((l.dropWhile isPySpace).reverse.dropWhile isPySpace).reverse

/-- Split character content into physical lines, as iterating a text file
line by line in Python's universal-newlines text mode: a line break is
`"\n"`, `"\r\n"`, or a bare `"\r"` (each yielded line is then stripped, so
the dropped terminators are immaterial).  `"a\nb"` ↦ `["a", "b"]`,
`"a\rb\n"` ↦ `["a", "b", ""]`, `"a\n"` ↦ `["a", ""]`, `""` ↦ `[""]`
(a final empty line is discarded by the `strip`/filter). -/
def splitLinesCh : List Char → List (List Char)
  | [] => [[]]
  | '\n' :: cs => [] :: splitLinesCh cs
  | '\r' :: '\n' :: cs => [] :: splitLinesCh cs
  | '\r' :: cs => [] :: splitLinesCh cs
  | c :: cs =>
    match splitLinesCh cs with
    | [] => [[c]]
    | l :: ls => (c :: l) :: ls

/-- `set(line.strip() for line in f if line.strip())` over raw content. -/
def parseLedger (cs : List Char) : Finset String :=
  (((splitLinesCh cs).map fun l => String.mk (stripChars l)).filter fun s => s ≠ "").toFinset

/-- State of the ledger's backing file. -/
inductive FileState
  | absent
  | readable (content : List Char)
  | unreadable
deriving DecidableEq

/-- `utils.get_processed_videos`: loads the set of processed ids; a missing
file and a read error both yield the empty set (the error is logged). -/
def get_processed_videos : FileState → Finset String
  | .absent => ∅
  | .readable cs => parseLedger cs
  | .unreadable => ∅

/-- `utils.add_processed_video`: appends `f"{video_id}\n"` to the file
(creating it if missing) and returns `True`; on an I/O error it logs and
returns `False` leaving the store unchanged. -/
def add_processed_video (video_id : String) : FileState → FileState × Bool
  | .absent => (.readable (video_id.data ++ ['\n']), true)
  | .readable cs => (.readable (cs ++ video_id.data ++ ['\n']), true)
  | .unreadable => (.unreadable, false)

/-- `utils.is_video_processed`: membership of the freshly loaded set. -/
def is_video_processed (video_id : String) (fs : FileState) : Bool :=
  decide (video_id ∈ get_processed_videos fs)

/-- An id that survives the line-oriented storage round trip: nonempty,
unchanged by stripping, and free of the line-break characters `'\n'` and
`'\r'`.  Every id the scraper produces (a purely numeric token) is clean. -/
def CleanId (id : String) : Prop :=
  id ≠ "" ∧ stripChars id.data = id.data ∧ '\n' ∉ id.data ∧ '\r' ∉ id.data

instance : DecidablePred CleanId := fun id => by
  unfold CleanId; infer_instance

/-- A store the appender can extend consistently: the file is absent, or
readable with content that is empty or newline-terminated (every content the
appender itself writes is newline-terminated). -/
def Writable : FileState → Prop
  | .absent => True
  | .readable cs => cs = [] ∨ cs.getLast? = some '\n'
  | .unreadable => False

instance : DecidablePred Writable := fun fs => by
  cases fs <;> unfold Writable <;> infer_instance

/-! ## Transform engine (`editor.py`)

`edit_video(input_video_path, video_id, edits, log_queue)`:  checks ffmpeg,
checks the input file, probes geometry with ffprobe (10s timeout), builds the
`hflip` / `crop=W:H:X:Y` filter chain, runs ffmpeg (120s timeout) to
`edited_videos/{video_id}_edited_ffmpeg.mp4`, validates the output, and
cleans up on failure or timeout. -/

/-- The `edits` dict: an absent key is `none`.  `edits.get("mirror")` is
truthy iff the stored value is truthy (modelled as `Bool`);
`edits.get("crop_percent", 0)` defaults to `0`. -/
structure EditsDict where
  mirror : Option Bool
  cropPercent : Option Int
deriving DecidableEq

/-- Lines 46–50: only a wholly absent `edits` argument receives the
documented defaults `mirror=True, crop_percent=2`. -/
def effectiveEdits : Option EditsDict → EditsDict
  | none => { mirror := some true, cropPercent := some 2 }
  | some e => e

/-- Round `num / den` to the nearest integer, ties to even (the IEEE-754
rounding of an exact quotient to an integer significand). -/
def rne (num den : Nat) : Nat :=
  let q := num / den
  let r := num % den
  if 2 * r < den then q
  else if den < 2 * r then q + 1
  else if q % 2 = 0 then q else q + 1

/-- Fuel-bounded: doublings needed to bring `100 * 2^52 ≤ pn * 2^k`. -/
def upScale : Nat → Nat → Nat
  | 0, _ => 0
  | fuel + 1, pn => if 100 * 2 ^ 52 ≤ pn then 0 else upScale fuel (pn * 2) + 1

/-- Fuel-bounded: halvings needed to bring `x` below `2^53`. -/
def downScale : Nat → Nat → Nat
  | 0, _ => 0
  | fuel + 1, x => if x < 2 ^ 53 then 0 else downScale fuel (x / 2) + 1

/-- Python's `int(w * (p / 100.0))` for nonnegative integers, evaluated
exactly: `p / 100.0` is the binary64 (53-bit significand, round to nearest,
ties to even) rounding of `p/100`, the product is rounded to binary64 once
more, and `int(..)` truncates.  Working with the dyadic significand keeps
all arithmetic on `Nat`.  Exact for `w < 2^53` (so for every probed video
dimension); validated pointwise against CPython. -/
def pyCutNN (w p : Nat) : Nat :=
  if p = 0 ∨ w = 0 then 0
  else
    let k := upScale 200 p
    let m1 := rne (p * 2 ^ k) 100
    let pr := w * m1
    let s := downScale 200 pr
    let m2 := rne pr (2 ^ s)
    if k ≤ s then m2 * 2 ^ (s - k) else m2 / 2 ^ (k - s)

/-- `int(w * (p / 100.0))` with Python's sign behaviour (float rounding and
`int` truncation are both symmetric in sign). -/
def pyCut (w p : Int) : Int :=
  if (0 ≤ w ∧ 0 ≤ p) ∨ (w ≤ 0 ∧ p ≤ 0) then (pyCutNN w.natAbs p.natAbs : Int)
  else -(pyCutNN w.natAbs p.natAbs : Int)

/-- Lines 85–104: the crop filter stage.  The per-side cut is
`int(w * (crop_percent / 100.0))` in IEEE-754 binary64 arithmetic
(`pyCut`); dimensions are forced even by decrementing odd values; a
nonpositive resulting dimension skips the stage (with a logged warning)
instead of failing the item. -/
def cropStage (width height cropPercent : Int) : Option String :=
  if 0 < cropPercent ∧ cropPercent < 50 then
    let cutW := pyCut width cropPercent
    let cutH := pyCut height cropPercent
    let outW := width - 2 * cutW
    let outH := height - 2 * cutH
    let outW := if outW % 2 = 0 then outW else outW - 1
    let outH := if outH % 2 = 0 then outH else outH - 1
    if outW ≤ 0 ∨ outH ≤ 0 then none
    else some ("crop=" ++ toString outW ++ ":" ++ toString outH ++ ":" ++
      toString cutW ++ ":" ++ toString cutH)
  else none

/-- Modelled from the spec (§4.4 step 2), for comparison with the code:
`cut_w = floor(width * crop_percent / 100)` (floor division), output
dimensions decremented by 1 when odd, offsets `(cut_w, cut_h)`, stage
skipped when the percentage is out of `(0, 50)` or a resulting dimension is
nonpositive. -/
def cropStageSpec (width height cropPercent : Int) : Option String :=
  if 0 < cropPercent ∧ cropPercent < 50 then
    let cutW := Int.fdiv (width * cropPercent) 100
    let cutH := Int.fdiv (height * cropPercent) 100
    let outW := width - 2 * cutW
    let outH := height - 2 * cutH
    let outW := if outW % 2 = 0 then outW else outW - 1
    let outH := if outH % 2 = 0 then outH else outH - 1
    if outW ≤ 0 ∨ outH ≤ 0 then none
    else some ("crop=" ++ toString outW ++ ":" ++ toString outH ++ ":" ++
      toString cutW ++ ":" ++ toString cutH)
  else none

/-- Lines 77–104: ordered filter chain — `hflip` first if requested, then
the crop stage if accepted. -/
def buildVideoFilters (width height : Int) (ed : EditsDict) : List String :=
  (if ed.mirror.getD false then ["hflip"] else []) ++
    (match cropStage width height (ed.cropPercent.getD 0) with
     | some s => [s]
     | none => [])

/-- Outcome of the ffprobe geometry call (10s timeout): completion with an
exit code and an optionally parsable `WxH` payload, or a timeout (which the
code turns into an escaping exception, see `EditResult.raised`). -/
inductive GeomProbe
  | completed (rc : Int) (dims : Option (Int × Int))
  | timedOut
deriving DecidableEq

/-- Outcome of the ffmpeg encode call (120s timeout). -/
inductive TranscodeRun
  | completed (rc : Int) (outExists : Bool) (outSize : Nat)
  | timedOut (partialExists : Bool)
deriving DecidableEq

/-- External-world outcomes for one `edit_video` invocation.  The derived
output path is assumed not to pre-exist (fresh run). -/
structure EditEnv where
  ffmpegInstalled : Bool
  inputExists : Bool
  probe : GeomProbe
  transcode : TranscodeRun

/-- Observable result of `edit_video`: the returned value, whether a file
exists at the derived output path afterwards, which filter chain was built
(ghost observation), whether the encode process was force-killed, and
whether an exception escaped the function. -/
structure EditResult where
  result : Option String
  outputExists : Bool
  filters : List String
  transcodeKilled : Bool
  raised : Bool
deriving DecidableEq

/-- Derived output path, line 43–44. -/
def editedOutputPath (video_id : String) : String :=
  "edited_videos/" ++ video_id ++ "_edited_ffmpeg.mp4"

/-- `editor.edit_video`.  On the probe timeout the handler at line 140 reads
the unbound local `process`, so the exception escapes (`raised`); on the
encode timeout the process is killed and a partial output removed; on a
failed encode the output is removed; success needs exit 0, an existing
output, and positive size. -/
def edit_video (env : EditEnv) (video_id : String) (edits : Option EditsDict) :
    EditResult :=
  if ¬ env.ffmpegInstalled then
    ⟨none, false, [], false, false⟩
  else if ¬ env.inputExists then
    ⟨none, false, [], false, false⟩
  else
    let ed := effectiveEdits edits
    match env.probe with
    | .timedOut => ⟨none, false, [], false, true⟩
    | .completed rc dims =>
      if rc ≠ 0 then ⟨none, false, [], false, false⟩
      else
        match dims with
        | none => ⟨none, false, [], false, false⟩
        | some (w, h) =>
          let filters := buildVideoFilters w h ed
          match env.transcode with
          | .timedOut _partialExists => ⟨none, false, filters, true, false⟩
          | .completed rc2 outEx outSz =>
            if rc2 = 0 ∧ outEx ∧ 0 < outSz then
              ⟨some (editedOutputPath video_id), true, filters, false, false⟩
            else
              ⟨none, false, filters, false, false⟩

/-! ## Discovery and fetch (`scraper.py`) -/

/-- Break a character sequence at the first occurrence of a (nonempty)
pattern: `some (before, after)` with the pattern removed, or `none` when the
pattern does not occur. -/
def breakOnSub (pat : List Char) : List Char → Option (List Char × List Char)
  | [] => none
  | c :: cs =>
    if pat.isPrefixOf (c :: cs) then some ([], (c :: cs).drop pat.length)
    else
      match breakOnSub pat cs with
      | none => none
      | some (pre, post) => some (c :: pre, post)

/-- Split a character sequence at every occurrence of a separator
character. -/
def splitOnChar (sep : Char) : List Char → List (List Char)
  | [] => [[]]
  | c :: cs =>
    if c = sep then [] :: splitOnChar sep cs
    else
      match splitOnChar sep cs with
      | [] => [[c]]
      | l :: ls => (c :: l) :: ls

/-- Modelled from `urllib.parse.urlparse(url).path` for the common absolute
URLs this scraper sees: the fragment and query are cut off; with a
`"://"` scheme marker, the host segment (up to the next `/`) is dropped and
the remainder (with its leading `/`) is the path; without one, the whole
remaining string is treated as the path. -/
def urlPathApprox (url : String) : String :=
  let noQuery :=
    (url.data.takeWhile fun c => c ≠ '#').takeWhile fun c => c ≠ '?'
  match breakOnSub "://".data noQuery with
  | none => String.mk noQuery
  | some (_scheme, hostAndPath) =>
    match breakOnSub ['/'] hostAndPath with
    | none => ""
    | some (_host, pathRest) => String.mk ('/' :: pathRest)

/-- `scraper.get_video_id_from_url`, lines 64–76: the first purely numeric
path segment longer than 15 characters, searched from the end of the path. -/
def get_video_id_from_url (url : String) : Option String :=
  ((splitOnChar '/' (urlPathApprox url).data).reverse.find?
    fun part => 15 < part.length && part.all Char.isDigit).map String.mk

/-- Python `'/video/' in url`. -/
def hasVideoSeg (url : String) : Bool :=
  (breakOnSub "/video/".data url.data).isSome

/-- Lines 154–169, one anchor element: its `href` (possibly null), filtered
by the `/video/` substring test, with the extracted id.  Yields the
candidate `(video_id, video_url)` this element contributes, if any. -/
def elemStep : Option String → Option (String × String)
  | none => none
  | some url =>
    if hasVideoSeg url then (get_video_id_from_url url).map fun vid => (vid, url)
    else none

/-- The candidates one scroll round's elements contribute, in document
order. -/
def elemCandidates (elems : List (Option String)) : List (String × String) :=
  elems.filterMap elemStep

/-- The candidates of a whole run of scroll rounds. -/
def roundsCandidates (rounds : List (List (Option String))) :
    List (String × String) :=
  (rounds.map elemCandidates).flatten

/-- The element scan of one scroll round (lines 154–169): candidates are
deduplicated against `found_video_ids`, ledger-known ids are skipped (and
not added to the dedup set), and the loop breaks once
`num_videos_to_find` items are collected. -/
def scanElems (led : FileState) (numToFind : Nat) :
    List (Option String) → List (String × String) → List String →
      List (String × String) × List String
  | [], acc, found => (acc, found)
  | e :: rest, acc, found =>
    match elemStep e with
    | none => scanElems led numToFind rest acc found
    | some (vid, url) =>
      if vid ∈ found then scanElems led numToFind rest acc found
      else if is_video_processed vid led then scanElems led numToFind rest acc found
      else
        let acc' := acc ++ [(vid, url)]
        let found' := found ++ [vid]
        if numToFind ≤ acc'.length then (acc', found')
        else scanElems led numToFind rest acc' found'

/-- The scroll loop (lines 133–174): each round contributes the elements its
re-scan found; after a round the outer loop stops when enough items were
collected. -/
def scanRounds (led : FileState) (numToFind : Nat) :
    List (List (Option String)) → List (String × String) → List String →
      List (String × String)
  | [], acc, _ => acc
  | r :: rest, acc, found =>
    let s := scanElems led numToFind r acc found
    if numToFind ≤ s.1.length then s.1
    else scanRounds led numToFind rest s.1 s.2

/-- `scraper.get_video_links_from_tiktok`: guards for a missing driver, an
empty hashtag, a failed navigation and an undetected feed container all
return `[]`; otherwise the scroll/scan loop runs and the result is truncated
to `num_videos_to_find`. -/
def get_video_links_from_tiktok (driverOk : Bool) (hashtag : String)
    (numToFind : Nat) (navOk containerFound : Bool)
    (rounds : List (List (Option String))) (led : FileState) :
    List (String × String) :=
  if ¬ driverOk then []
  else if hashtag = "" then []
  else if ¬ navOk then []
  else if ¬ containerFound then []
  else (scanRounds led numToFind rounds [] []).take numToFind

/-- Outcome of the yt-dlp invocation (120s process timeout). -/
inductive FetchRun
  | completed (rc : Int) (outExists : Bool) (outSize : Nat)
  | timedOut (partialExists : Bool)
  | toolMissing
deriving DecidableEq

/-- Outcome of the ffprobe integrity invocation (30s timeout). -/
inductive VerifyRun
  | completed (rc : Int) (stdoutTrimmed : String)
  | timedOut
  | toolMissing
  | errored
deriving DecidableEq

/-- External-world outcomes for one `download_video` invocation.  The
destination path `videos/{video_id}.mp4` is assumed not to pre-exist. -/
structure DownloadEnv where
  fetch : FetchRun
  verify : VerifyRun

/-- Observable result of `download_video`: returned value, whether the
artifact file exists afterwards, whether yt-dlp was actually invoked (ghost
observation for the ledger re-check), and whether a CRITICAL message was
logged. -/
structure DownloadResult where
  result : Option String
  fileExists : Bool
  fetchInvoked : Bool
  criticalLogged : Bool
deriving DecidableEq

/-- Destination path, line 193. -/
def downloadPath (video_id : String) : String :=
  "videos/" ++ video_id ++ ".mp4"

/-- `scraper.download_video`, lines 185–285.  The ledger is re-checked on
entry (line 189); a successful fetch (exit 0, existing nonempty file) flows
into inline ffprobe verification; a missing ffprobe keeps the unverified
file and returns its path with a CRITICAL log; every other verification
failure deletes the file; fetch failure/timeout deletes any partial file; a
missing yt-dlp logs CRITICAL and returns nothing. -/
def download_video (video_id video_url : String) (led : FileState)
    (env : DownloadEnv) : DownloadResult :=
  if is_video_processed video_id led then
    ⟨none, false, false, false⟩
  else
    match env.fetch with
    | .toolMissing => ⟨none, false, true, true⟩
    | .timedOut _partialExists => ⟨none, false, true, false⟩
    | .completed rc outEx outSz =>
      if rc = 0 ∧ outEx ∧ 0 < outSz then
        match env.verify with
        | .completed vrc out =>
          if vrc = 0 ∧ out ≠ "" then
            ⟨some (downloadPath video_id), true, true, false⟩
          else ⟨none, false, true, false⟩
        | .timedOut => ⟨none, false, true, false⟩
        | .toolMissing => ⟨some (downloadPath video_id), true, true, true⟩
        | .errored => ⟨none, false, true, false⟩
      else
        -- line 257: remove when the file exists and is empty or rc ≠ 0
        ⟨none, outEx && ¬(outSz = 0 ∨ rc ≠ 0), true, false⟩

/-- Observable result of `verify_downloaded_video`. -/
structure VerifyFileResult where
  ok : Bool
  fileExists : Bool
  criticalLogged : Bool
deriving DecidableEq

/-- `scraper.verify_downloaded_video`, lines 315–364: a missing or empty
file fails (an existing empty file is removed); a zero exit with nonempty
codec output passes; a missing ffprobe logs CRITICAL but passes and keeps
the file; all other outcomes fail and delete the file. -/
def verify_downloaded_video (fileExists : Bool) (fileSize : Nat)
    (probe : VerifyRun) : VerifyFileResult :=
  if ¬ fileExists ∨ fileSize = 0 then ⟨false, false, false⟩
  else
    match probe with
    | .completed rc out =>
      if rc = 0 ∧ out ≠ "" then ⟨true, true, false⟩ else ⟨false, false, false⟩
    | .timedOut => ⟨false, false, false⟩
    | .toolMissing => ⟨true, true, true⟩
    | .errored => ⟨false, false, false⟩

/-- Aggregate result of the download loop / scrape run. -/
structure ScrapeResult where
  details : List (String × String)
  attempts : Nat
  criticalLogged : Bool
deriving DecidableEq

/-- Lines 397–411: every discovered link is fed to `download_video` in
order; a successful download contributes `{'id': .., 'filepath': ..}` to the
result, a failed one only logs — the loop always continues to the next
item. -/
def downloadLoop (led : FileState) (envAt : Nat → DownloadEnv) :
    List (String × String) → Nat → ScrapeResult
  | [], _ => ⟨[], 0, false⟩
  | (vid, url) :: rest, i =>
    let r := download_video vid url led (envAt i)
    let tail := downloadLoop led envAt rest (i + 1)
    { details :=
        (match r.result with
         | some fp => [(vid, fp)]
         | none => []) ++ tail.details,
      attempts := tail.attempts + 1,
      criticalLogged := r.criticalLogged || tail.criticalLogged }

/-- Environment of one `scrape_and_download_videos_by_hashtag` run. -/
structure ScrapeEnv where
  driverOk : Bool
  navOk : Bool
  containerFound : Bool
  rounds : List (List (Option String))
  fetchEnvAt : Nat → DownloadEnv

/-- `scraper.scrape_and_download_videos_by_hashtag`, lines 366–426: a failed
WebDriver setup aborts with a CRITICAL log; an empty link list completes
with a warning; otherwise every link goes through the download loop. -/
def scrape_and_download_videos_by_hashtag (hashtag : String)
    (numToFind : Nat) (led : FileState) (env : ScrapeEnv) : ScrapeResult :=
  if ¬ env.driverOk then ⟨[], 0, true⟩
  else
    let links := get_video_links_from_tiktok true hashtag numToFind
      env.navOk env.containerFound env.rounds led
    if links.isEmpty then ⟨[], 0, false⟩
    else downloadLoop led env.fetchEnvAt links 0

/-! ## Pipeline orchestrator (`main.py`, `App.scraping_worker`) -/

/-- One downloaded item handed to the edit loop
(`{'id': .., 'filepath': ..}`); an empty string models a falsy value. -/
structure VideoInfo where
  id : String
  filepath : String
deriving DecidableEq

/-- Environment of the edit loop: the outcome of `editor.edit_video` per
item, and the state of the cooperative stop event when checked before the
`i`-th item. -/
structure WorkerEnv where
  edit : VideoInfo → Option String
  stopBefore : Nat → Bool

/-- Lines 207–237 of `main.py`: per item — stop check, falsy-field guard,
edit, and `utils.add_processed_video(video_id)` only under
`if edited_video_path:`. -/
def runWorker (env : WorkerEnv) : List VideoInfo → Nat → FileState → FileState
  | [], _, led => led
  | v :: rest, i, led =>
    if env.stopBefore i then led
    else
      let led' :=
        if v.id ≠ "" ∧ v.filepath ≠ "" then
          match env.edit v with
          | some _ => (add_processed_video v.id led).1
          | none => led
        else led
      runWorker env rest (i + 1) led'

/-- `App.scraping_worker`'s ledger effect over the downloaded items. -/
def scraping_worker (env : WorkerEnv) (items : List VideoInfo)
    (led : FileState) : FileState :=
  runWorker env items 0 led

/-- The ids the run commits, read off declaratively: the items before the
stop point whose fields are truthy and whose edit returned a path, in
order. -/
def committedIds (env : WorkerEnv) : List VideoInfo → Nat → List String
  | [], _ => []
  | v :: rest, i =>
    if env.stopBefore i then []
    else
      (if v.id ≠ "" ∧ v.filepath ≠ "" ∧ (env.edit v).isSome then [v.id] else []) ++
        committedIds env rest (i + 1)

/-- Appending a list of ids to the store in order. -/
def appendAll (led : FileState) (ids : List String) : FileState :=
  ids.foldl (fun l id => (add_processed_video id l).1) led

/-! ## Supporting lemmas -/

/-! ### Line-splitting lemmas -/

theorem splitLinesCh_lf (cs : List Char) :
    splitLinesCh ('\n' :: cs) = [] :: splitLinesCh cs := rfl

theorem splitLinesCh_crlf (cs : List Char) :
    splitLinesCh ('\r' :: '\n' :: cs) = [] :: splitLinesCh cs := rfl

theorem splitLinesCh_cr_ne (c : Char) (cs : List Char) (h : c ≠ '\n') :
    splitLinesCh ('\r' :: c :: cs) = [] :: splitLinesCh (c :: cs) := by
  simp [splitLinesCh, h]

/-- Unfolding equation for a head character that breaks no line. -/
theorem splitLinesCh_cons_ne (c : Char) (cs : List Char) (h1 : c ≠ '\n')
    (h2 : c ≠ '\r') :
    splitLinesCh (c :: cs) =
      match splitLinesCh cs with
      | [] => [[c]]
      | l :: ls => (c :: l) :: ls := by
  simp [splitLinesCh, h1, h2]

theorem splitLinesCh_ne_nil (cs : List Char) : splitLinesCh cs ≠ [] := by
  cases cs with
  | nil => simp [splitLinesCh]
  | cons c cs =>
    by_cases h1 : c = '\n'
    · subst h1; simp [splitLinesCh]
    · by_cases h2 : c = '\r'
      · subst h2
        cases cs with
        | nil => simp [splitLinesCh]
        | cons c' cs' =>
          by_cases h3 : c' = '\n'
          · subst h3; rw [splitLinesCh_crlf]; simp
          · rw [splitLinesCh_cr_ne c' cs' h3]; simp
      · rw [splitLinesCh_cons_ne c cs h1 h2]
        cases splitLinesCh cs <;> simp

/-- Content containing a line feed splits into at least two lines. -/
theorem splitLinesCh_two_le (cs : List Char) (h : '\n' ∈ cs) :
    2 ≤ (splitLinesCh cs).length := by
  induction cs with
  | nil => simp at h
  | cons c cs ih =>
    by_cases h1 : c = '\n'
    · subst h1
      rw [splitLinesCh_lf]
      have hpos := List.length_pos.mpr (splitLinesCh_ne_nil cs)
      simp only [List.length_cons]
      omega
    · by_cases h2 : c = '\r'
      · subst h2
        cases cs with
        | nil => simp at h
        | cons c' cs' =>
          by_cases h3 : c' = '\n'
          · subst h3
            rw [splitLinesCh_crlf]
            have hpos := List.length_pos.mpr (splitLinesCh_ne_nil cs')
            simp only [List.length_cons]
            omega
          · rw [splitLinesCh_cr_ne c' cs' h3]
            have hpos := List.length_pos.mpr (splitLinesCh_ne_nil (c' :: cs'))
            simp only [List.length_cons]
            omega
      · have hmem : '\n' ∈ cs := by
          rcases List.mem_cons.mp h with h | h
          · exact absurd h.symm h1
          · exact h
        rw [splitLinesCh_cons_ne c cs h1 h2]
        have := ih hmem
        cases hs : splitLinesCh cs with
        | nil => exact absurd hs (splitLinesCh_ne_nil cs)
        | cons l ls => rw [hs] at this; simpa using this

/-- Splitting a break-free chunk followed by a line feed. -/
theorem splitLinesCh_append_newline (l rest : List Char) (h : '\n' ∉ l)
    (h' : '\r' ∉ l) :
    splitLinesCh (l ++ '\n' :: rest) = l :: splitLinesCh rest := by
  induction l with
  | nil => simp [splitLinesCh]
  | cons c cs ih =>
    have hc1 : c ≠ '\n' := fun hc => h (hc ▸ List.mem_cons_self c cs)
    have hc2 : c ≠ '\r' := fun hc => h' (hc ▸ List.mem_cons_self c cs)
    have hcs1 : '\n' ∉ cs := fun hm => h (List.mem_cons_of_mem _ hm)
    have hcs2 : '\r' ∉ cs := fun hm => h' (List.mem_cons_of_mem _ hm)
    rw [List.cons_append, splitLinesCh_cons_ne c _ hc1 hc2, ih hcs1 hcs2]

/-- Appending to newline-terminated (or empty) content extends the line list
(the empty last line is replaced by the appended chunk's lines).  Fuel
induction on the length of the existing content. -/
theorem splitLinesCh_append_term :
    ∀ (n : Nat) (cs : List Char), cs.length ≤ n →
      (cs = [] ∨ cs.getLast? = some '\n') →
      ∀ ds, splitLinesCh (cs ++ ds) =
        (splitLinesCh cs).dropLast ++ splitLinesCh ds := by
  intro n
  induction n with
  | zero =>
    intro cs hlen _ ds
    have hnil : cs = [] := List.eq_nil_of_length_eq_zero (Nat.le_zero.mp hlen)
    subst hnil
    simp [splitLinesCh]
  | succ n ih =>
    intro cs hlen hterm ds
    cases cs with
    | nil => simp [splitLinesCh]
    | cons c cs' =>
      have hterm' : (c :: cs').getLast? = some '\n' := by
        rcases hterm with h | h
        · exact absurd h (by simp)
        · exact h
      cases cs' with
      | nil =>
        have hc : c = '\n' := by simpa using hterm'
        subst hc
        simp [splitLinesCh]
      | cons c' cs'' =>
        have hterm'' : (c' :: cs'').getLast? = some '\n' := by
          rw [List.getLast?_cons_cons] at hterm'
          exact hterm'
        have hlen' : (c' :: cs'').length ≤ n := by
          simp only [List.length_cons] at hlen ⊢
          omega
        have hne' := splitLinesCh_ne_nil (c' :: cs'')
        by_cases h1 : c = '\n'
        · subst h1
          rw [List.cons_append, splitLinesCh_lf, splitLinesCh_lf,
            ih (c' :: cs'') hlen' (Or.inr hterm'') ds]
          cases hs : splitLinesCh (c' :: cs'') with
          | nil => exact absurd hs hne'
          | cons m ms => simp
        · by_cases h2 : c = '\r'
          · subst h2
            by_cases h3 : c' = '\n'
            · subst h3
              rw [List.cons_append, List.cons_append, splitLinesCh_crlf,
                splitLinesCh_crlf]
              cases cs'' with
              | nil => simp [splitLinesCh]
              | cons e es =>
                have hterm3 : (e :: es).getLast? = some '\n' := by
                  rw [List.getLast?_cons_cons] at hterm''
                  exact hterm''
                have hlen'' : (e :: es).length ≤ n := by
                  simp only [List.length_cons] at hlen ⊢
                  omega
                rw [ih (e :: es) hlen'' (Or.inr hterm3) ds]
                have hne'' := splitLinesCh_ne_nil (e :: es)
                cases hs : splitLinesCh (e :: es) with
                | nil => exact absurd hs hne''
                | cons m ms => simp
            · rw [List.cons_append, List.cons_append,
                splitLinesCh_cr_ne c' _ h3, splitLinesCh_cr_ne c' _ h3,
                ← List.cons_append,
                ih (c' :: cs'') hlen' (Or.inr hterm'') ds]
              cases hs : splitLinesCh (c' :: cs'') with
              | nil => exact absurd hs hne'
              | cons m ms => simp
          · have hmem : '\n' ∈ c' :: cs'' := by
              rcases List.getLast?_eq_some_iff.mp hterm'' with ⟨zs, hzs⟩
              rw [hzs]
              simp
            have h2le := splitLinesCh_two_le _ hmem
            cases hs : splitLinesCh (c' :: cs'') with
            | nil => exact absurd hs hne'
            | cons l ls =>
              cases ls with
              | nil => rw [hs] at h2le; simp at h2le
              | cons l₂ ls₂ =>
                rw [List.cons_append, splitLinesCh_cons_ne c _ h1 h2,
                  splitLinesCh_cons_ne c _ h1 h2, hs,
                  ih (c' :: cs'') hlen' (Or.inr hterm'') ds, hs]
                simp

/-- Newline-terminated (or empty) content ends in an empty physical line. -/
theorem splitLinesCh_term_decomp (cs : List Char)
    (hterm : cs = [] ∨ cs.getLast? = some '\n') :
    splitLinesCh cs = (splitLinesCh cs).dropLast ++ [[]] := by
  have := splitLinesCh_append_term cs.length cs le_rfl hterm []
  simpa [splitLinesCh] using this

/-- Appending one clean id to terminated content adds exactly that id to the
parsed set. -/
theorem parseLedger_append_clean (cs : List Char) (id : String)
    (hterm : cs = [] ∨ cs.getLast? = some '\n') (hclean : CleanId id) :
    parseLedger (cs ++ id.data ++ ['\n']) = insert id (parseLedger cs) := by
  obtain ⟨hne, hstrip, hnl, hcr⟩ := hclean
  have hsplit2 : splitLinesCh (id.data ++ ['\n']) = [id.data, []] := by
    have := splitLinesCh_append_newline id.data [] hnl hcr
    simpa using this
  have hmain : splitLinesCh (cs ++ id.data ++ ['\n']) =
      (splitLinesCh cs).dropLast ++ [id.data, []] := by
    rw [List.append_assoc,
      splitLinesCh_append_term cs.length cs le_rfl hterm, hsplit2]
  have hcs_decomp : splitLinesCh cs = (splitLinesCh cs).dropLast ++ [[]] :=
    splitLinesCh_term_decomp cs hterm
  have hid : String.mk (stripChars id.data) = id := by
    rw [hstrip]
  unfold parseLedger
  rw [hmain]
  conv_rhs => rw [hcs_decomp]
  rw [List.map_append, List.map_append, List.filter_append, List.filter_append,
    List.toFinset_append, List.toFinset_append]
  have hempty : String.mk (stripChars ([] : List Char)) = "" := rfl
  simp only [List.map_cons, List.map_nil, hempty, hid]
  have h1 : List.filter (fun s => decide (s ≠ "")) [id, ""] = [id] := by
    simp [List.filter, hne]
  have h2 : List.filter (fun s => decide (s ≠ "")) [""] = [] := by
    simp [List.filter]
  rw [h1, h2]
  simp [Finset.union_comm, Finset.insert_eq]


/-- Appending keeps the store writable (the written record is
newline-terminated). -/
theorem Writable_add (id : String) (fs : FileState) (h : Writable fs) :
    Writable (add_processed_video id fs).1 := by
  cases fs with
  | absent =>
    show ([] : List Char) ++ id.data ++ ['\n'] = [] ∨ _
    right
    show (([] : List Char) ++ id.data ++ ['\n']).getLast? = some '\n'
    simp
  | readable cs =>
    right
    show (cs ++ id.data ++ ['\n']).getLast? = some '\n'
    exact List.getLast?_concat _
  | unreadable => exact absurd h (by simp [Writable])

theorem parseLedger_nil : parseLedger [] = ∅ := rfl

/-- Loading after a successful clean-id append is exactly inserting the id. -/
theorem load_add (id : String) (fs : FileState) (hw : Writable fs) (hc : CleanId id) :
    get_processed_videos (add_processed_video id fs).1 =
      insert id (get_processed_videos fs) := by
  cases fs with
  | absent =>
    show parseLedger (id.data ++ ['\n']) = insert id ∅
    have := parseLedger_append_clean [] id (Or.inl rfl) hc
    simpa [parseLedger_nil] using this
  | readable cs =>
    exact parseLedger_append_clean cs id hw hc
  | unreadable => exact absurd hw (by simp [Writable])

theorem appendAll_nil (led : FileState) : appendAll led [] = led := rfl

theorem appendAll_cons (led : FileState) (id : String) (ids : List String) :
    appendAll led (id :: ids) = appendAll (add_processed_video id led).1 ids := rfl

theorem Writable_appendAll (led : FileState) (ids : List String)
    (h : Writable led) : Writable (appendAll led ids) := by
  induction ids generalizing led with
  | nil => exact h
  | cons id ids ih => exact ih _ (Writable_add id led h)

/-- Loading after a batch of clean appends is the union with those ids. -/
theorem load_appendAll (led : FileState) (ids : List String)
    (hw : Writable led) (hc : ∀ id ∈ ids, CleanId id) :
    get_processed_videos (appendAll led ids) =
      get_processed_videos led ∪ ids.toFinset := by
  induction ids generalizing led with
  | nil => simp [appendAll_nil]
  | cons id ids ih =>
    rw [appendAll_cons, ih _ (Writable_add id led hw)
      (fun x hx => hc x (List.mem_cons_of_mem _ hx)),
      load_add id led hw (hc id (List.mem_cons_self id ids))]
    ext x
    simp only [Finset.mem_union, Finset.mem_insert, List.mem_toFinset,
      List.mem_cons]
    tauto

/-! ## Claim theorems -/

/-- C6: the ledger load fails open — a nonexistent backing file yields the
empty set without raising, an unreadable one is caught, logged and also
yields the empty set, and for every id the point check `is_video_processed`
is equivalent to membership in a fresh `get_processed_videos` load. -/
theorem ledger_load_fails_open :
    get_processed_videos FileState.absent = ∅
    ∧ get_processed_videos FileState.unreadable = ∅
    ∧ ∀ (id : String) (fs : FileState),
        is_video_processed id fs = true ↔ id ∈ get_processed_videos fs := by
  refine ⟨rfl, rfl, fun id fs => ?_⟩
  simp [is_video_processed]

/-- C7 counterexample: the claim "for every id, after append(id) a fresh
load() contains that id" fails at the concrete id `" x"`: the appended line
is stripped on load, so the loaded set holds `"x"` and not `" x"`. -/
theorem ledger_append_strip_counterexample :
    is_video_processed " x" (add_processed_video " x" FileState.absent).1 = false
    ∧ get_processed_videos (add_processed_video " x" FileState.absent).1 = {"x"} := by
  exact ⟨by decide, by decide⟩

/-- C7 (amended): for every id that survives the line-storage round trip
(nonempty, strip-invariant, newline-free — every id the scraper produces is
such) and every writable store, after append(id) a fresh load() contains the
id; after two appends it is still contained and the loaded set is the same
single-membership set as after one append. -/
theorem ledger_append_set_semantics (id : String) (led : FileState)
    (hc : CleanId id) (hw : Writable led) :
    is_video_processed id (add_processed_video id led).1 = true
    ∧ is_video_processed id
        (add_processed_video id (add_processed_video id led).1).1 = true
    ∧ get_processed_videos
        (add_processed_video id (add_processed_video id led).1).1 =
      get_processed_videos (add_processed_video id led).1 := by
  have h1 := load_add id led hw hc
  have hw1 := Writable_add id led hw
  have h2 := load_add id (add_processed_video id led).1 hw1 hc
  refine ⟨?_, ?_, ?_⟩
  · simp [is_video_processed, h1]
  · simp [is_video_processed, h2]
  · rw [h2, h1, Finset.insert_idem]

theorem ledger_append_set_semantics_witness :
    is_video_processed "1234567890123456"
      (add_processed_video "1234567890123456" FileState.absent).1 = true
    ∧ is_video_processed "1234567890123456"
        (add_processed_video "1234567890123456"
          (add_processed_video "1234567890123456" FileState.absent).1).1 = true
    ∧ get_processed_videos
        (add_processed_video "1234567890123456"
          (add_processed_video "1234567890123456" FileState.absent).1).1 =
      get_processed_videos
        (add_processed_video "1234567890123456" FileState.absent).1 :=
  ledger_append_set_semantics "1234567890123456" FileState.absent
    (by decide) trivial

/-- C4 counterexample: the crop stage is not always built exactly as
specified — the per-side cut is computed in binary64 float arithmetic, and
at width=height=100 with crop_percent=29 Python's `int(100 * (29 / 100.0))`
is 28 while the spec's `floor(100 * 29 / 100)` is 29: the code emits
`crop=44:44:28:28` where the specified stage is `crop=42:42:29:29`. -/
theorem crop_float_rounding_counterexample :
    cropStage 100 100 29 = some "crop=44:44:28:28"
    ∧ cropStageSpec 100 100 29 = some "crop=42:42:29:29"
    ∧ cropStage 100 100 29 ≠ cropStageSpec 100 100 29 :=
  ⟨by decide, by decide, by decide⟩

/-- C4 (amended): the crop stage is gated exactly as specified — added only
when 0 < crop_percent < 50 — but the per-side cut is the float expression
`int(w * (crop_percent / 100.0))`, which can fall one below the specified
`floor(w * crop_percent / 100)`; at the spec's enumerated instances the two
agree: 1000×500 at 2% yields `crop=960:480:20:10`, 0% and 51% add no stage,
width 999 gives the odd 961 decremented to 960, and a nonpositive
post-rounding dimension skips the stage (warning, not failure: the mirror
stage still applies). -/
theorem crop_filter_arithmetic :
    (∀ w h cp : Int, ¬(0 < cp ∧ cp < 50) → cropStage w h cp = none)
    ∧ cropStage 1000 500 2 = some "crop=960:480:20:10"
    ∧ (∀ w h : Int, cropStage w h 0 = none)
    ∧ (∀ w h : Int, cropStage w h 51 = none)
    ∧ cropStage 999 500 2 = some "crop=960:480:19:10"
    ∧ (999 - 2 * pyCut 999 2) % 2 = 1
    ∧ cropStage 1 1 40 = none
    ∧ buildVideoFilters 1 1 ⟨some true, some 40⟩ = ["hflip"] := by
  refine ⟨?_, by decide, ?_, ?_, by decide, by decide, by decide, by decide⟩
  · intro w h cp hcp
    unfold cropStage
    simp [hcp]
  · intro w h
    simp [cropStage]
  · intro w h
    have hn : ¬((0 : Int) < 51 ∧ (51 : Int) < 50) := by norm_num
    simp [cropStage, hn]

theorem crop_filter_arithmetic_witness :
    cropStage 1000 499 51 = none :=
  crop_filter_arithmetic.1 1000 499 51 (by norm_num)

/-- The crop stage string always starts with `crop=`, so it is never the
mirror stage. -/
theorem cropStage_ne_hflip (w h cp : Int) (s : String)
    (hs : cropStage w h cp = some s) : s ≠ "hflip" := by
  unfold cropStage at hs
  by_cases hcp : 0 < cp ∧ cp < 50
  · rw [if_pos hcp] at hs
    set outW := (if (w - 2 * pyCut w cp) % 2 = 0
      then w - 2 * pyCut w cp
      else w - 2 * pyCut w cp - 1) with houtW
    by_cases hz : outW ≤ 0 ∨ (if (h - 2 * pyCut h cp) % 2 = 0
        then h - 2 * pyCut h cp
        else h - 2 * pyCut h cp - 1) ≤ 0
    · simp only [← houtW, if_pos hz] at hs
      exact absurd hs (by simp)
    · simp only [← houtW, if_neg hz, Option.some.injEq] at hs
      subst hs
      intro hcontra
      have hd := congrArg String.data hcontra
      simp only [String.data_append] at hd
      simp at hd
  · rw [if_neg hcp] at hs
    exact absurd hs (by simp)

/-- C10: the documented defaults `mirror=true, crop_percent=2` apply only
when `edits` is absent entirely; a supplied dict without a `"mirror"` key
adds no `hflip` stage, and without a `"crop_percent"` key the percentage
defaults to 0 so no crop stage is added — partially specified dicts do not
inherit the defaults. -/
theorem edits_defaults_only_when_absent :
    (∀ (w h : Int) (e : EditsDict), e.mirror = none →
      "hflip" ∉ buildVideoFilters w h e)
    ∧ (∀ (w h : Int) (e : EditsDict), e.cropPercent = none →
        buildVideoFilters w h e = if e.mirror.getD false then ["hflip"] else [])
    ∧ effectiveEdits none = ⟨some true, some 2⟩
    ∧ (∀ e : EditsDict, effectiveEdits (some e) = e)
    ∧ ∀ (env : EditEnv) (vid : String),
        env.ffmpegInstalled = true → env.inputExists = true →
        env.probe = .completed 0 (some (1000, 500)) →
        (edit_video env vid none).filters = ["hflip", "crop=960:480:20:10"] := by
  refine ⟨?_, ?_, rfl, fun e => rfl, ?_⟩
  · intro w h e hm
    unfold buildVideoFilters
    rw [hm]
    cases hcs : cropStage w h (e.cropPercent.getD 0) with
    | none => simp
    | some s =>
      have := cropStage_ne_hflip w h _ s hcs
      simp [this.symm]

  · intro w h e hcp
    unfold buildVideoFilters
    rw [hcp]
    have : cropStage w h ((none : Option Int).getD 0) = none := by
      simp [cropStage]
    rw [this]
    cases e.mirror.getD false <;> simp
  · intro env vid h1 h2 h3
    unfold edit_video
    rw [h1, h3]
    simp only [h2]
    cases henc : env.transcode with
    | timedOut p => simp [henc, effectiveEdits]; decide
    | completed rc outEx outSz =>
      by_cases hok : rc = 0 ∧ outEx = true ∧ 0 < outSz
      · simp [henc, hok, effectiveEdits]; decide
      · simp [henc, hok, effectiveEdits]; decide

theorem edits_defaults_only_when_absent_witness :
    "hflip" ∉ buildVideoFilters 1000 500 ⟨none, some 2⟩
    ∧ buildVideoFilters 1000 500 ⟨some true, none⟩ = ["hflip"]
    ∧ (edit_video ⟨true, true, .completed 0 (some (1000, 500)),
        .completed 0 true 10⟩ "v" none).filters =
      ["hflip", "crop=960:480:20:10"] :=
  ⟨edits_defaults_only_when_absent.1 1000 500 ⟨none, some 2⟩ rfl,
   by
    have h := edits_defaults_only_when_absent.2.1 1000 500 ⟨some true, none⟩ rfl
    simpa using h,
   edits_defaults_only_when_absent.2.2.2.2
     ⟨true, true, .completed 0 (some (1000, 500)), .completed 0 true 10⟩
     "v" rfl rfl rfl⟩

/-- C8: a missing integrity-probe tool degrades verification instead of
failing it — both in the inline verification inside `download_video`
(a successful fetch with a missing ffprobe logs CRITICAL, keeps the file and
returns the artifact path) and in `verify_downloaded_video` (which returns
pass and keeps the file). -/
theorem probe_tool_missing_degraded :
    (∀ (vid url : String) (led : FileState) (sz : Nat),
      is_video_processed vid led = false → 0 < sz →
      download_video vid url led ⟨.completed 0 true sz, .toolMissing⟩ =
        ⟨some (downloadPath vid), true, true, true⟩)
    ∧ ∀ sz : Nat, 0 < sz →
        verify_downloaded_video true sz .toolMissing = ⟨true, true, true⟩ := by
  constructor
  · intro vid url led sz hproc hsz
    unfold download_video
    rw [hproc]
    simp [hsz]
  · intro sz hsz
    unfold verify_downloaded_video
    simp [Nat.pos_iff_ne_zero.mp hsz]

theorem probe_tool_missing_degraded_witness :
    download_video "1234567890123456" "u" FileState.absent
      ⟨.completed 0 true 100, .toolMissing⟩ =
        ⟨some (downloadPath "1234567890123456"), true, true, true⟩
    ∧ verify_downloaded_video true 100 .toolMissing = ⟨true, true, true⟩ :=
  ⟨probe_tool_missing_degraded.1 "1234567890123456" "u" FileState.absent 100
    (by decide) (by decide),
   probe_tool_missing_degraded.2 100 (by decide)⟩

/-- C5: when the transcode invocation times out, the process is
force-killed, any partial output at the derived path is removed (the output
file is absent afterwards), `edit_video` returns no result, and a worker run
over such an item leaves the ledger untouched. -/
theorem transcode_timeout_cleanup :
    ∀ (env : EditEnv) (vid : String) (edits : Option EditsDict) (pex : Bool)
      (w h : Int),
      env.ffmpegInstalled = true → env.inputExists = true →
      env.probe = .completed 0 (some (w, h)) →
      env.transcode = .timedOut pex →
      (edit_video env vid edits).result = none
      ∧ (edit_video env vid edits).outputExists = false
      ∧ (edit_video env vid edits).transcodeKilled = true
      ∧ ∀ (led : FileState) (stop : Nat → Bool) (fp : String),
          scraping_worker
            ⟨fun v => (edit_video env v.id edits).result, stop⟩
            [⟨vid, fp⟩] led = led := by
  intro env vid edits pex w h h1 h2 h3 h4
  have hres : ∀ v : String, edit_video env v edits =
      ⟨none, false, buildVideoFilters w h (effectiveEdits edits), true, false⟩ := by
    intro v
    unfold edit_video
    rw [h1, h3, h4]
    simp [h2]
  refine ⟨by rw [hres], by rw [hres], by rw [hres], ?_⟩
  intro led stop fp
  unfold scraping_worker runWorker
  by_cases hstop : stop 0
  · simp [hstop]
  · simp only [hstop, Bool.false_eq_true, if_false]
    rw [hres]
    by_cases hguard : vid ≠ "" ∧ fp ≠ "" <;> simp [hguard, runWorker]

theorem transcode_timeout_cleanup_witness :
    (edit_video ⟨true, true, .completed 0 (some (1000, 500)),
        .timedOut true⟩ "v" none).result = none
    ∧ (edit_video ⟨true, true, .completed 0 (some (1000, 500)),
        .timedOut true⟩ "v" none).outputExists = false
    ∧ (edit_video ⟨true, true, .completed 0 (some (1000, 500)),
        .timedOut true⟩ "v" none).transcodeKilled = true
    ∧ ∀ (led : FileState) (stop : Nat → Bool) (fp : String),
        scraping_worker
          ⟨fun v => (edit_video ⟨true, true, .completed 0 (some (1000, 500)),
              .timedOut true⟩ v.id none).result, stop⟩
          [⟨"v", fp⟩] led = led :=
  transcode_timeout_cleanup
    ⟨true, true, .completed 0 (some (1000, 500)), .timedOut true⟩
    "v" none true 1000 500 rfl rfl rfl rfl

/-- C3 counterexample: the fetch adapter's behaviour on a given (id, url)
does depend on ledger membership — with the id already in the ledger
`download_video` skips and returns nothing, while on an empty ledger the
same call (same fetch/verify outcomes) returns the downloaded path. -/
theorem download_ledger_dependence_counterexample :
    (download_video "1234567890123456" "u"
      (.readable ("1234567890123456\n".data))
      ⟨.completed 0 true 100, .completed 0 "h264"⟩).result = none
    ∧ (download_video "1234567890123456" "u" FileState.absent
      ⟨.completed 0 true 100, .completed 0 "h264"⟩).result =
        some "videos/1234567890123456.mp4" := by
  exact ⟨by decide, by decide⟩

/-- C3 (amended): the fetch adapter does re-validate ledger state itself —
on entry it re-checks membership and, for a ledger-known id, returns no
result without invoking the fetch tool; only for ids outside the ledger is
its behaviour independent of the ledger contents. -/
theorem download_ledger_recheck :
    (∀ (vid url : String) (led : FileState) (env : DownloadEnv),
      is_video_processed vid led = true →
      (download_video vid url led env).result = none
      ∧ (download_video vid url led env).fetchInvoked = false)
    ∧ ∀ (vid url : String) (env : DownloadEnv) (led led' : FileState),
        is_video_processed vid led = false →
        is_video_processed vid led' = false →
        download_video vid url led env = download_video vid url led' env := by
  constructor
  · intro vid url led env hproc
    unfold download_video
    rw [hproc]
    exact ⟨rfl, rfl⟩
  · intro vid url env led led' h h'
    unfold download_video
    rw [h, h']

theorem download_ledger_recheck_witness :
    (download_video "1234567890123456" "u"
      (.readable ("1234567890123456\n".data))
      ⟨.completed 0 true 100, .completed 0 "h264"⟩).result = none
    ∧ download_video "2222222222222222" "u" FileState.absent
        ⟨.toolMissing, .toolMissing⟩ =
      download_video "2222222222222222" "u"
        (.readable ("1234567890123456\n".data))
        ⟨.toolMissing, .toolMissing⟩ :=
  ⟨(download_ledger_recheck.1 "1234567890123456" "u"
      (.readable ("1234567890123456\n".data))
      ⟨.completed 0 true 100, .completed 0 "h264"⟩ (by decide)).1,
   download_ledger_recheck.2 "2222222222222222" "u"
     ⟨.toolMissing, .toolMissing⟩ FileState.absent
     (.readable ("1234567890123456\n".data)) (by decide) (by decide)⟩

/-- C1 counterexample: with the fetch tool missing for every item, a run
over two discovered items still attempts both (`attempts = 2`) — the
missing tool is handled inside `download_video` as a per-item failure and
the loop continues, instead of the whole batch aborting after the first
fetch; no item succeeds and a CRITICAL message is logged. -/
theorem fetch_tool_missing_no_abort_counterexample :
    scrape_and_download_videos_by_hashtag "demo" 2 FileState.absent
      { driverOk := true, navOk := true, containerFound := true,
        rounds := [[some "https://www.tiktok.com/@a/video/1111111111111111",
                    some "https://www.tiktok.com/@b/video/2222222222222222"]],
        fetchEnvAt := fun _ => ⟨.toolMissing, .toolMissing⟩ } =
      ⟨[], 2, true⟩ := by
  decide

/-- C1 (amended): when the fetch tool is not installed, each
`download_video` call logs a critical message and returns no result, but the
batch loop treats this as a per-item failure: it keeps attempting every
remaining discovered item (attempts = number of links) and the run ends
with zero successful downloads rather than aborting after the first item. -/
theorem fetch_tool_missing_per_item :
    (∀ (vid url : String) (led : FileState) (env : DownloadEnv),
      env.fetch = .toolMissing → is_video_processed vid led = false →
      (download_video vid url led env).result = none
      ∧ (download_video vid url led env).criticalLogged = true)
    ∧ ∀ (led : FileState) (envAt : Nat → DownloadEnv)
        (links : List (String × String)) (i : Nat),
        (∀ j, (envAt j).fetch = .toolMissing) →
        (downloadLoop led envAt links i).details = []
        ∧ (downloadLoop led envAt links i).attempts = links.length := by
  have hone : ∀ (vid url : String) (led : FileState) (env : DownloadEnv),
      env.fetch = .toolMissing →
      (download_video vid url led env).result = none := by
    intro vid url led env hf
    unfold download_video
    by_cases hproc : is_video_processed vid led = true <;>
      simp [hproc, hf]
  constructor
  · intro vid url led env hf hproc
    refine ⟨hone vid url led env hf, ?_⟩
    unfold download_video
    simp [hproc, hf]
  · intro led envAt links i hall
    induction links generalizing i with
    | nil => exact ⟨rfl, rfl⟩
    | cons p rest ih =>
      obtain ⟨vid, url⟩ := p
      have htail := ih (i + 1)
      unfold downloadLoop
      refine ⟨?_, ?_⟩ <;>
        simp [hone vid url led (envAt i) (hall i), htail.1, htail.2]

theorem fetch_tool_missing_per_item_witness :
    (download_video "1111111111111111" "u" FileState.absent
      ⟨.toolMissing, .toolMissing⟩).result = none
    ∧ (downloadLoop FileState.absent (fun _ => ⟨.toolMissing, .toolMissing⟩)
        [("1111111111111111", "u"), ("2222222222222222", "v")] 0).attempts = 2 :=
  ⟨(fetch_tool_missing_per_item.1 "1111111111111111" "u" FileState.absent
      ⟨.toolMissing, .toolMissing⟩ rfl (by decide)).1,
   (fetch_tool_missing_per_item.2 FileState.absent
     (fun _ => ⟨.toolMissing, .toolMissing⟩)
     [("1111111111111111", "u"), ("2222222222222222", "v")] 0
     (fun _ => rfl)).2⟩

/-- The worker's imperative edit-commit loop equals appending exactly the
committed ids. -/
theorem runWorker_eq_appendAll (env : WorkerEnv) (items : List VideoInfo) :
    ∀ (i : Nat) (led : FileState),
      runWorker env items i led = appendAll led (committedIds env items i) := by
  induction items with
  | nil => intro i led; rfl
  | cons v rest ih =>
    intro i led
    unfold runWorker committedIds
    by_cases hstop : env.stopBefore i = true
    · simp [hstop, appendAll_nil]
    · by_cases hguard : v.id ≠ "" ∧ v.filepath ≠ ""
      · cases hedit : env.edit v with
        | some p =>
          simp [hstop, hguard, hedit, ih, appendAll_cons]
        | none =>
          simp [hstop, hguard, hedit, ih]
      · have hc : ¬(¬v.id = "" ∧ ¬v.filepath = "" ∧ (env.edit v).isSome = true) := by
          tauto
        simp [hstop, hguard, hc, ih]

/-- Every committed id is the id of one of the run's items. -/
theorem committedIds_subset (env : WorkerEnv) (items : List VideoInfo) :
    ∀ (i : Nat), ∀ x ∈ committedIds env items i, ∃ v ∈ items, x = v.id := by
  induction items with
  | nil => intro i x hx; simp [committedIds] at hx
  | cons v rest ih =>
    intro i x hx
    unfold committedIds at hx
    by_cases hstop : env.stopBefore i = true
    · simp [hstop] at hx
    · simp only [hstop, Bool.false_eq_true, if_false, List.mem_append] at hx
      rcases hx with hx | hx
      · refine ⟨v, List.mem_cons_self _ _, ?_⟩
        by_cases hguard : v.id ≠ "" ∧ v.filepath ≠ "" ∧ (env.edit v).isSome
        · simp [hguard] at hx; exact hx
        · simp [hguard] at hx
      · obtain ⟨w, hw, hxw⟩ := ih (i + 1) x hx
        exact ⟨w, List.mem_cons_of_mem _ hw, hxw⟩

/-- C2: in a run, an item's id is appended to the ledger iff the transform
stage returned a successful (non-`None`) result for it — the worker's ledger
effect is exactly `appendAll` over the committed ids — and at membership
level (for the clean ids the scraper produces and a writable store) an id is
in the final ledger iff it was there before or belongs to an item whose
transform succeeded. -/
theorem worker_commits_iff_transform_succeeds :
    (∀ (env : WorkerEnv) (items : List VideoInfo) (led : FileState),
      scraping_worker env items led = appendAll led (committedIds env items 0))
    ∧ ∀ (env : WorkerEnv) (items : List VideoInfo) (led : FileState),
        (∀ v ∈ items, CleanId v.id) → Writable led →
        ∀ id : String,
          id ∈ get_processed_videos (scraping_worker env items led) ↔
            id ∈ get_processed_videos led ∨ id ∈ committedIds env items 0 := by
  refine ⟨fun env items led => runWorker_eq_appendAll env items 0 led, ?_⟩
  intro env items led hclean hw id
  rw [show scraping_worker env items led = _ from
    runWorker_eq_appendAll env items 0 led]
  rw [load_appendAll led _ hw ?hc]
  · simp
  case hc =>
    intro x hx
    obtain ⟨v, hv, rfl⟩ := committedIds_subset env items 0 x hx
    exact hclean v hv

theorem worker_commits_iff_transform_succeeds_witness :
    scraping_worker ⟨fun _ => some "p", fun _ => false⟩
        [⟨"1234567890123456", "f"⟩] FileState.absent =
      appendAll FileState.absent
        (committedIds ⟨fun _ => some "p", fun _ => false⟩
          [⟨"1234567890123456", "f"⟩] 0)
    ∧ ("1234567890123456" ∈ get_processed_videos
        (scraping_worker ⟨fun _ => some "p", fun _ => false⟩
          [⟨"1234567890123456", "f"⟩] FileState.absent) ↔
        "1234567890123456" ∈ get_processed_videos FileState.absent
        ∨ "1234567890123456" ∈ committedIds ⟨fun _ => some "p", fun _ => false⟩
            [⟨"1234567890123456", "f"⟩] 0) :=
  ⟨worker_commits_iff_transform_succeeds.1 _ _ _,
   worker_commits_iff_transform_succeeds.2
     ⟨fun _ => some "p", fun _ => false⟩ [⟨"1234567890123456", "f"⟩]
     FileState.absent
     (by
       intro v hv
       rw [List.mem_singleton] at hv
       subst hv
       decide)
     trivial "1234567890123456"⟩

/-- Invariant of the element scan: it extends the accumulator with a
subsequence of the round's candidates, keeps the dedup set equal to the
accumulated ids, preserves id-distinctness, and never admits a ledger-known
id. -/
theorem scanElems_spec (led : FileState) (n : Nat) :
    ∀ (elems : List (Option String)) (acc : List (String × String))
      (found : List String),
      found = acc.map Prod.fst →
      (acc.map Prod.fst).Nodup →
      (∀ p ∈ acc, is_video_processed p.1 led = false) →
      ∃ new,
        (scanElems led n elems acc found).1 = acc ++ new
        ∧ (scanElems led n elems acc found).2 = (acc ++ new).map Prod.fst
        ∧ ((acc ++ new).map Prod.fst).Nodup
        ∧ (∀ p ∈ acc ++ new, is_video_processed p.1 led = false)
        ∧ new.Sublist (elemCandidates elems) := by
  intro elems
  induction elems with
  | nil =>
    intro acc found hf hnd hpr
    exact ⟨[], by simp [scanElems], by simp [scanElems, hf],
      by simpa using hnd, by simpa using hpr, by simp [elemCandidates]⟩
  | cons e rest ih =>
    intro acc found hf hnd hpr
    cases he : elemStep e with
    | none =>
      obtain ⟨new, h1, h2, h3, h4, h5⟩ := ih acc found hf hnd hpr
      refine ⟨new, ?_, ?_, h3, h4, ?_⟩
      · simpa [scanElems, he] using h1
      · simpa [scanElems, he] using h2
      · rw [elemCandidates, List.filterMap_cons_none he]
        exact h5
    | some p =>
      obtain ⟨vid, url⟩ := p
      have hcand : elemCandidates (e :: rest) =
          (vid, url) :: elemCandidates rest := by
        rw [elemCandidates, List.filterMap_cons_some he]
        rfl
      by_cases hfound : vid ∈ found
      · obtain ⟨new, h1, h2, h3, h4, h5⟩ := ih acc found hf hnd hpr
        refine ⟨new, ?_, ?_, h3, h4, ?_⟩
        · simpa [scanElems, he, hfound] using h1
        · simpa [scanElems, he, hfound] using h2
        · rw [hcand]; exact h5.cons _
      · by_cases hproc : is_video_processed vid led = true
        · obtain ⟨new, h1, h2, h3, h4, h5⟩ := ih acc found hf hnd hpr
          refine ⟨new, ?_, ?_, h3, h4, ?_⟩
          · simpa [scanElems, he, hfound, hproc] using h1
          · simpa [scanElems, he, hfound, hproc] using h2
          · rw [hcand]; exact h5.cons _
        · have hproc' : is_video_processed vid led = false :=
            Bool.not_eq_true _ ▸ eq_false_of_ne_true hproc
          have hf' : found ++ [vid] = (acc ++ [(vid, url)]).map Prod.fst := by
            simp [hf]
          have hnd' : ((acc ++ [(vid, url)]).map Prod.fst).Nodup := by
            simp only [List.map_append, List.map_cons, List.map_nil]
            rw [List.nodup_append]
            refine ⟨hnd, List.nodup_singleton _, ?_⟩
            intro a ha hb
            simp only [List.mem_singleton] at hb
            subst hb
            exact hfound (hf ▸ ha)
          have hpr' : ∀ p ∈ acc ++ [(vid, url)],
              is_video_processed p.1 led = false := by
            intro q hq
            rcases List.mem_append.mp hq with hq | hq
            · exact hpr q hq
            · rw [List.mem_singleton] at hq
              subst hq
              exact hproc'
          by_cases hstopn : n ≤ acc.length + 1
          · refine ⟨[(vid, url)], ?_, ?_, hnd', hpr', ?_⟩
            · simp [scanElems, he, hfound, hproc, hstopn]
            · have hv : (scanElems led n (e :: rest) acc found).2 =
                  found ++ [vid] := by
                simp [scanElems, he, hfound, hproc, hstopn]
              rw [hv, hf']
            · rw [hcand]
              exact (List.nil_sublist _).cons₂ _
          · obtain ⟨new, h1, h2, h3, h4, h5⟩ :=
              ih (acc ++ [(vid, url)]) (found ++ [vid]) hf' hnd' hpr'
            refine ⟨(vid, url) :: new, ?_, ?_, ?_, ?_, ?_⟩
            · rw [show acc ++ (vid, url) :: new =
                (acc ++ [(vid, url)]) ++ new by simp]
              simpa [scanElems, he, hfound, hproc, hstopn] using h1
            · rw [show acc ++ (vid, url) :: new =
                (acc ++ [(vid, url)]) ++ new by simp]
              simpa [scanElems, he, hfound, hproc, hstopn] using h2
            · rw [show acc ++ (vid, url) :: new =
                (acc ++ [(vid, url)]) ++ new by simp]
              exact h3
            · rw [show acc ++ (vid, url) :: new =
                (acc ++ [(vid, url)]) ++ new by simp]
              exact h4
            · rw [hcand]
              exact h5.cons₂ _

/-- Invariant of the scroll loop, lifted from `scanElems_spec`. -/
theorem scanRounds_spec (led : FileState) (n : Nat) :
    ∀ (rounds : List (List (Option String)))
      (acc : List (String × String)) (found : List String),
      found = acc.map Prod.fst →
      (acc.map Prod.fst).Nodup →
      (∀ p ∈ acc, is_video_processed p.1 led = false) →
      ∃ new,
        scanRounds led n rounds acc found = acc ++ new
        ∧ ((acc ++ new).map Prod.fst).Nodup
        ∧ (∀ p ∈ acc ++ new, is_video_processed p.1 led = false)
        ∧ new.Sublist (roundsCandidates rounds) := by
  intro rounds
  induction rounds with
  | nil =>
    intro acc found hf hnd hpr
    exact ⟨[], by simp [scanRounds], by simpa using hnd,
      by simpa using hpr, by simp [roundsCandidates]⟩
  | cons r rest ih =>
    intro acc found hf hnd hpr
    obtain ⟨new₁, h1, h2, h3, h4, h5⟩ := scanElems_spec led n r acc found hf hnd hpr
    have hrc : roundsCandidates (r :: rest) =
        elemCandidates r ++ roundsCandidates rest := by
      simp [roundsCandidates]
    by_cases hstopn : n ≤ (scanElems led n r acc found).1.length
    · refine ⟨new₁, ?_, h3, h4, ?_⟩
      · simpa [scanRounds, hstopn] using h1
      · rw [hrc]
        exact h5.trans (List.sublist_append_left _ _)
    · obtain ⟨new₂, g1, g2, g3, g4⟩ := ih (acc ++ new₁)
        ((acc ++ new₁).map Prod.fst) rfl h3 h4
      refine ⟨new₁ ++ new₂, ?_, ?_, ?_, ?_⟩
      · rw [← List.append_assoc]
        rw [show scanRounds led n (r :: rest) acc found =
          scanRounds led n rest (scanElems led n r acc found).1
            (scanElems led n r acc found).2 by simp [scanRounds, hstopn]]
        rw [h1, h2]
        exact g1
      · rw [← List.append_assoc]; exact g2
      · rw [← List.append_assoc]; exact g3
      · rw [hrc]
        exact h5.append g4

/-- C9: for every hashtag, target count and ledger snapshot, discovery
returns at most `n` `(id, url)` pairs, as a subsequence of the scanned
candidate stream (discovery order), with pairwise-distinct ids and with no
ledger-known id ever returned. -/
theorem discovery_bounded_fresh_ordered :
    ∀ (driverOk : Bool) (hashtag : String) (n : Nat)
      (navOk containerFound : Bool) (rounds : List (List (Option String)))
      (led : FileState),
      (get_video_links_from_tiktok driverOk hashtag n navOk containerFound
        rounds led).length ≤ n
      ∧ ((get_video_links_from_tiktok driverOk hashtag n navOk containerFound
          rounds led).map Prod.fst).Nodup
      ∧ (∀ p ∈ get_video_links_from_tiktok driverOk hashtag n navOk
            containerFound rounds led,
          is_video_processed p.1 led = false)
      ∧ (get_video_links_from_tiktok driverOk hashtag n navOk containerFound
          rounds led).Sublist (roundsCandidates rounds) := by
  intro driverOk hashtag n navOk cf rounds led
  unfold get_video_links_from_tiktok
  by_cases h1 : driverOk = true
  · by_cases h2 : hashtag = ""
    · simp [h1, h2, List.nil_sublist]
    · by_cases h3 : navOk = true
      · by_cases h4 : cf = true
        · simp only [h1, h2, h3, h4, not_true, not_false_iff, if_neg,
            if_false, ite_false, ite_true, if_true]
          obtain ⟨new, g1, g2, g3, g4⟩ := scanRounds_spec led n rounds [] [] rfl
            (by simp) (by simp)
          rw [show scanRounds led n rounds [] [] = new by simpa using g1]
          simp only [List.nil_append] at g2 g3
          refine ⟨?_, ?_, ?_, ?_⟩
          · exact List.length_take_le n new
          · rw [List.map_take]
            exact g2.sublist (List.take_sublist n (new.map Prod.fst))
          · intro p hp
            exact g3 p (List.mem_of_mem_take hp)
          · exact (List.take_sublist n new).trans g4
        · simp [h1, h2, h3, h4, List.nil_sublist]
      · simp [h1, h2, h3, List.nil_sublist]
  · simp [h1, List.nil_sublist]

theorem discovery_bounded_fresh_ordered_witness :
    (get_video_links_from_tiktok true "demo" 2 true true
      [[some "https://www.tiktok.com/@a/video/1111111111111111"]]
      FileState.absent).length ≤ 2 :=
  (discovery_bounded_fresh_ordered true "demo" 2 true true
    [[some "https://www.tiktok.com/@a/video/1111111111111111"]]
    FileState.absent).1

end TTV
